import Mathlib

/-!
Verification development for the Caption-Validator repository.

The Go sources are shallowly embedded as Lean definitions:

* strings are modelled as `List Char`; a parsed file is a `List (List Char)`,
  the list of lines produced by `bufio.Scanner` (one entry per physical line,
  end-of-line markers stripped);
* `float64` times are modelled as `ℚ` (the code only adds, subtracts,
  compares, and takes min/max of them);
* fallible Go functions returning `(T, error)` become `Except ParseError T`
  or `Except CoverageError T`; the distinct Go `error` values produced by a
  single failure category are collapsed onto one constructor each.

Every definition mirrors one Go function from
`internal/parser/{parser.go,srt.go,large_parser.go}` (the WebVTT parser file)
and `internal/validator/coverage.go`; each doc comment names its source.
-/

/-- Model of Go `unicode.IsSpace` restricted to the white-space code points
below U+0100 (the only ones the repository's inputs exercise):
`'\t' '\n' '\v' '\f' '\r' ' '` together with U+0085 and U+00A0. -/
def goIsSpace (c : Char) : Bool :=
  c = ' ' || c = '\t' || c = '\n' || c = '\x0B' || c = '\x0C' || c = '\r' ||
  c = '\x85' || c = '\xA0'

/-- Right half of Go `strings.TrimSpace`: remove trailing white space. -/
def trimRight (l : List Char) : List Char :=
  (l.reverse.dropWhile goIsSpace).reverse

/-- Model of Go `strings.TrimSpace`: remove leading and trailing white space. -/
def goTrim (l : List Char) : List Char :=
  trimRight (l.dropWhile goIsSpace)

/-- Model of Go `strings.Split(s, sep)` for a one-character separator
(the code uses it with `":"` and `" "`). -/
def splitOnChar (sep : Char) : List Char → List (List Char)
  | [] => [[]]
  | c :: rest =>
    if c = sep then [] :: splitOnChar sep rest
    else
      match splitOnChar sep rest with
      | [] => [[c]]
      | h :: t => (c :: h) :: t

/-- Model of Go `strings.Split(s, "-->")`: split around each (leftmost,
non-overlapping) occurrence of the three-character arrow token. -/
def splitArrow : List Char → List (List Char)
  | '-' :: '-' :: '>' :: rest => [] :: splitArrow rest
  | c :: rest =>
    match splitArrow rest with
    | [] => [[c]]
    | h :: t => (c :: h) :: t
  | [] => [[]]

/-- Model of Go `strings.Contains(s, "-->")`. -/
def containsArrow : List Char → Bool
  | '-' :: '-' :: '>' :: _ => true
  | _ :: rest => containsArrow rest
  | [] => false

/-- Numeric value of a digit string (most significant first). -/
def natOfDigits (l : List Char) : Nat :=
  l.foldl (fun n c => 10 * n + (c.toNat - 48)) 0

/-- Model of Go `strconv.ParseFloat(s, 64)` restricted to the plain decimal
forms `[+-]?digits`, `[+-]?digits.digits`, `[+-]?.digits`, `[+-]?digits.`
that caption timestamps can contain.  Go additionally accepts exponents,
hexadecimal floats, `Inf`/`NaN` and digit-separating underscores; none of
those occur in timestamp components, and every string rejected here that Go
would accept is still a parse success there, never a silent difference on
the repository's input grammar.  The result is exact (`ℚ`), abstracting the
`float64` rounding of the Go original. -/
def parseFloat (s : List Char) : Option ℚ :=
  let (sgn, m) : ℚ × List Char :=
    match s with
    | '+' :: rest => (1, rest)
    | '-' :: rest => (-1, rest)
    | _ => (1, s)
  if m.isEmpty then none
  else
    let ip := m.takeWhile Char.isDigit
    match m.dropWhile Char.isDigit with
    | [] => some (sgn * (natOfDigits ip : ℚ))
    | '.' :: fp =>
      if fp.all Char.isDigit && !(ip.isEmpty && fp.isEmpty) then
        some (sgn * ((natOfDigits ip : ℚ) + (natOfDigits fp : ℚ) / 10 ^ fp.length))
      else none
    | _ => none

/-- Model of Go `strconv.Atoi`: an optional sign followed by at least one
digit (the out-of-range failure of the 64-bit original is not modelled;
caption indices are tiny). -/
def goAtoi (s : List Char) : Option Int :=
  match s with
  | '+' :: ds => if !ds.isEmpty && ds.all Char.isDigit then some (natOfDigits ds : Int) else none
  | '-' :: ds => if !ds.isEmpty && ds.all Char.isDigit then some (-(natOfDigits ds : Int)) else none
  | ds => if !ds.isEmpty && ds.all Char.isDigit then some (natOfDigits ds : Int) else none

/-- Model of Go `strings.Replace(s, ",", ".", 1)`: replace the first comma. -/
def replaceFirstComma : List Char → List Char
  | [] => []
  | ',' :: rest => '.' :: rest
  | c :: rest => c :: replaceFirstComma rest

/-- Model of Go `strings.Join(lines, "\n")`. -/
def joinNL : List (List Char) → List Char
  | [] => []
  | [t] => t
  | t :: ts => t ++ '\n' :: joinNL ts

/-- Parse failures of the two caption parsers.  Each constructor stands for
one category of Go `error` value: `missingHeader` for
`errors.New("missing WEBVTT header")`, `emptyFile` for
`errors.New("empty file")`, `ioEOF` for the `io.EOF` returned by the chunked
WebVTT parser on empty input, `invalidTimeline` for
`errors.New("invalid time format")`, and `invalidTimestamp` for both
`errors.New("invalid timestamp format")` and the `strconv` errors forwarded
from a non-numeric timestamp component. -/
inductive ParseError where
  | missingHeader
  | emptyFile
  | ioEOF
  | invalidTimeline
  | invalidTimestamp
deriving DecidableEq

/-- Model of the `Caption` struct of `internal/parser/parser.go`. -/
structure Caption where
  index : Int
  startTime : ℚ
  endTime : ℚ
  text : List Char
deriving DecidableEq

/-- Model of `parseSRTTimestamp` (srt.go): replace the first comma by a
period, split on `':'`; with other than 3 components return `0` with no
error; otherwise parse the three components (failure of any is an error)
and combine them. -/
def parseSRTTimestamp (timestamp : List Char) : Except ParseError ℚ :=
  let ts := replaceFirstComma timestamp
  match splitOnChar ':' ts with
  | [p0, p1, p2] =>
    match parseFloat p0, parseFloat p1, parseFloat p2 with
    | some hours, some minutes, some seconds =>
      .ok (hours * 3600 + minutes * 60 + seconds)
    | _, _, _ => .error .invalidTimestamp
  | _ => .ok 0

/-- Model of `parseWebVTTTimestamp` (the WebVTT parser file): split on `':'`;
3 components are `HH:MM:SS.mmm`, 2 components are `MM:SS.mmm`, anything
else is an error; a non-numeric component is an error. -/
def parseWebVTTTimestamp (timestamp : List Char) : Except ParseError ℚ :=
  match splitOnChar ':' timestamp with
  | [p0, p1, p2] =>
    match parseFloat p0, parseFloat p1, parseFloat p2 with
    | some hours, some minutes, some seconds =>
      .ok (hours * 3600 + minutes * 60 + seconds)
    | _, _, _ => .error .invalidTimestamp
  | [p0, p1] =>
    match parseFloat p0, parseFloat p1 with
    | some minutes, some seconds => .ok (minutes * 60 + seconds)
    | _, _ => .error .invalidTimestamp
  | _ => .error .invalidTimestamp

/-- Model of `parseSRTTimeline` (srt.go): trim, split on the arrow token;
with other than 2 parts return `(0, 0)` with no error; otherwise parse the
two trimmed timestamps, propagating their errors. -/
def parseSRTTimeline (line : List Char) : Except ParseError (ℚ × ℚ) :=
  match splitArrow (goTrim line) with
  | [p0, p1] =>
    match parseSRTTimestamp (goTrim p0) with
    | .error e => .error e
    | .ok startTime =>
      match parseSRTTimestamp (goTrim p1) with
      | .error e => .error e
      | .ok endTime => .ok (startTime, endTime)
  | _ => .ok (0, 0)

/-- Model of `parseWebVTTTimeline` (the WebVTT parser file): trim, split on
the arrow token; other than 2 parts is an `invalid time format` error; the
end-timestamp field is cut at the first space (cue settings) before parsing. -/
def parseWebVTTTimeline (line : List Char) : Except ParseError (ℚ × ℚ) :=
  match splitArrow (goTrim line) with
  | [p0, p1] =>
    match parseWebVTTTimestamp (goTrim p0) with
    | .error e => .error e
    | .ok startTime =>
      match parseWebVTTTimestamp ((splitOnChar ' ' (goTrim p1)).headD []) with
      | .error e => .error e
      | .ok endTime => .ok (startTime, endTime)
  | _ => .error .invalidTimeline

/-- Model of the per-line loop of `parseSRT` (srt.go).  The arguments after
the remaining lines are the Go locals `parseState` (0 = expecting index,
1 = expecting timestamp, 2 = inside text), `currentCaption`, `textLines`
and the accumulated `captions`. -/
def srtLoop : List (List Char) → Nat → Caption → List (List Char) → List Caption →
    Except ParseError (List Caption)
  | [], parseState, cur, textLines, captions =>
    if parseState > 0 && !textLines.isEmpty then
      .ok (captions ++ [{ cur with text := joinNL textLines }])
    else .ok captions
  | line :: rest, parseState, cur, textLines, captions =>
    let trimmedLine := goTrim line
    if trimmedLine.isEmpty then
      if parseState > 0 then
        if textLines.isEmpty then srtLoop rest 0 cur textLines captions
        else
          srtLoop rest 0 { cur with text := joinNL textLines } []
            (captions ++ [{ cur with text := joinNL textLines }])
      else srtLoop rest parseState cur textLines captions
    else
      match parseState with
      | 0 =>
        match goAtoi trimmedLine with
        | none =>
          if containsArrow trimmedLine then
            match parseSRTTimeline trimmedLine with
            | .ok (startTime, endTime) =>
              srtLoop rest 2
                { index := (captions.length : Int) + 1, startTime := startTime,
                  endTime := endTime, text := [] } textLines captions
            | .error _ =>
              if captions.length > 0 then srtLoop rest 2 cur (textLines ++ [line]) captions
              else srtLoop rest 0 cur textLines captions
          else
            if captions.length > 0 then srtLoop rest 2 cur (textLines ++ [line]) captions
            else srtLoop rest 0 cur textLines captions
        | some index =>
          srtLoop rest 1 { index := index, startTime := 0, endTime := 0, text := [] }
            textLines captions
      | 1 =>
        if containsArrow trimmedLine then
          match parseSRTTimeline trimmedLine with
          | .error e => .error e
          | .ok (startTime, endTime) =>
            srtLoop rest 2 { cur with startTime := startTime, endTime := endTime } [] captions
        else srtLoop rest 2 cur (textLines ++ [line]) captions
      | _ => srtLoop rest parseState cur (textLines ++ [line]) captions

/-- Model of `parseSRT` (srt.go) on the scanned lines. -/
def parseSRT (lines : List (List Char)) : Except ParseError (List Caption) :=
  srtLoop lines 0 { index := 0, startTime := 0, endTime := 0, text := [] } [] []

/-- Model of the per-line loop of `parseChunkedSRT` (large_parser.go); the Go
loop body is identical, line by line, to the one of `parseSRT`. -/
def chunkedSRTLoop : List (List Char) → Nat → Caption → List (List Char) → List Caption →
    Except ParseError (List Caption)
  | [], parseState, cur, textLines, captions =>
    if parseState > 0 && !textLines.isEmpty then
      .ok (captions ++ [{ cur with text := joinNL textLines }])
    else .ok captions
  | line :: rest, parseState, cur, textLines, captions =>
    let trimmedLine := goTrim line
    if trimmedLine.isEmpty then
      if parseState > 0 then
        if textLines.isEmpty then chunkedSRTLoop rest 0 cur textLines captions
        else
          chunkedSRTLoop rest 0 { cur with text := joinNL textLines } []
            (captions ++ [{ cur with text := joinNL textLines }])
      else chunkedSRTLoop rest parseState cur textLines captions
    else
      match parseState with
      | 0 =>
        match goAtoi trimmedLine with
        | none =>
          if containsArrow trimmedLine then
            match parseSRTTimeline trimmedLine with
            | .ok (startTime, endTime) =>
              chunkedSRTLoop rest 2
                { index := (captions.length : Int) + 1, startTime := startTime,
                  endTime := endTime, text := [] } textLines captions
            | .error _ =>
              if captions.length > 0 then chunkedSRTLoop rest 2 cur (textLines ++ [line]) captions
              else chunkedSRTLoop rest 0 cur textLines captions
          else
            if captions.length > 0 then chunkedSRTLoop rest 2 cur (textLines ++ [line]) captions
            else chunkedSRTLoop rest 0 cur textLines captions
        | some index =>
          chunkedSRTLoop rest 1 { index := index, startTime := 0, endTime := 0, text := [] }
            textLines captions
      | 1 =>
        if containsArrow trimmedLine then
          match parseSRTTimeline trimmedLine with
          | .error e => .error e
          | .ok (startTime, endTime) =>
            chunkedSRTLoop rest 2 { cur with startTime := startTime, endTime := endTime } [] captions
        else chunkedSRTLoop rest 2 cur (textLines ++ [line]) captions
      | _ => chunkedSRTLoop rest parseState cur (textLines ++ [line]) captions

/-- Model of `parseChunkedSRT` (large_parser.go): same state machine as
`parseSRT`; the Go original only adds a 64KB cap on the scanner's line
buffer, which is invisible at the level of scanned lines. -/
def parseChunkedSRT (lines : List (List Char)) : Except ParseError (List Caption) :=
  chunkedSRTLoop lines 0 { index := 0, startTime := 0, endTime := 0, text := [] } [] []

/-- Header-skipping loop of `parseWebVTT`: consume lines up to and including
the first blank line (the preamble). -/
def dropThroughBlank : List (List Char) → List (List Char)
  | [] => []
  | l :: rest => if l.isEmpty then rest else dropThroughBlank rest

/-- The WEBVTT signature checked by `strings.HasPrefix(.., "WEBVTT")`. -/
def webvttSig : List Char := ['W', 'E', 'B', 'V', 'T', 'T']

/-- Model of the cue loop of `parseWebVTT` (the WebVTT parser file).
Arguments after the remaining lines: the pending start/end times, the Go
locals `inCaption`, `textLines`, `index`, and the accumulated `captions`. -/
def vttCues : List (List Char) → ℚ × ℚ → Bool → List (List Char) → Int → List Caption →
    Except ParseError (List Caption)
  | [], cur, inCaption, textLines, index, captions =>
    if inCaption then
      .ok (captions ++
        [{ index := index, startTime := cur.1, endTime := cur.2, text := joinNL textLines }])
    else .ok captions
  | line :: rest, cur, inCaption, textLines, index, captions =>
    if line.isEmpty then
      if inCaption then
        vttCues rest cur false [] (index + 1)
          (captions ++
            [{ index := index, startTime := cur.1, endTime := cur.2, text := joinNL textLines }])
      else vttCues rest cur inCaption textLines index captions
    else if containsArrow line then
      let captions' :=
        if inCaption then
          captions ++
            [{ index := index, startTime := cur.1, endTime := cur.2, text := joinNL textLines }]
        else captions
      let index' := if inCaption then index + 1 else index
      match parseWebVTTTimeline line with
      | .error e => .error e
      | .ok (startTime, endTime) => vttCues rest (startTime, endTime) true [] index' captions'
    else if inCaption then vttCues rest cur inCaption (textLines ++ [line]) index captions
    else vttCues rest cur inCaption textLines index captions

/-- Model of `parseWebVTT` (the WebVTT parser file): empty input is the
`empty file` error; a first line not starting with `WEBVTT` is the
`missing WEBVTT header` error; then the preamble is skipped and the cues
parsed. -/
def parseWebVTT (lines : List (List Char)) : Except ParseError (List Caption) :=
  match lines with
  | [] => .error .emptyFile
  | first :: rest =>
    if webvttSig.isPrefixOf first then vttCues (dropThroughBlank rest) (0, 0) false [] 1 []
    else .error .missingHeader

/-- Model of the cue loop of `parseChunkedWebVTT` (large_parser.go); the Go
loop body is identical, line by line, to the one of `parseWebVTT`. -/
def chunkedVTTCues : List (List Char) → ℚ × ℚ → Bool → List (List Char) → Int → List Caption →
    Except ParseError (List Caption)
  | [], cur, inCaption, textLines, index, captions =>
    if inCaption then
      .ok (captions ++
        [{ index := index, startTime := cur.1, endTime := cur.2, text := joinNL textLines }])
    else .ok captions
  | line :: rest, cur, inCaption, textLines, index, captions =>
    if line.isEmpty then
      if inCaption then
        chunkedVTTCues rest cur false [] (index + 1)
          (captions ++
            [{ index := index, startTime := cur.1, endTime := cur.2, text := joinNL textLines }])
      else chunkedVTTCues rest cur inCaption textLines index captions
    else if containsArrow line then
      let captions' :=
        if inCaption then
          captions ++
            [{ index := index, startTime := cur.1, endTime := cur.2, text := joinNL textLines }]
        else captions
      let index' := if inCaption then index + 1 else index
      match parseWebVTTTimeline line with
      | .error e => .error e
      | .ok (startTime, endTime) => chunkedVTTCues rest (startTime, endTime) true [] index' captions'
    else if inCaption then chunkedVTTCues rest cur inCaption (textLines ++ [line]) index captions
    else chunkedVTTCues rest cur inCaption textLines index captions

/-- Model of `parseChunkedWebVTT` (large_parser.go): as `parseWebVTT` except
that empty input returns `io.EOF` instead of the `empty file` error; the Go
original additionally caps the scanner's line buffer at 64KB, which is
invisible at the level of scanned lines. -/
def parseChunkedWebVTT (lines : List (List Char)) : Except ParseError (List Caption) :=
  match lines with
  | [] => .error .ioEOF
  | first :: rest =>
    if webvttSig.isPrefixOf first then chunkedVTTCues (dropThroughBlank rest) (0, 0) false [] 1 []
    else .error .missingHeader

/-- Model of the regex replacement `<[^>]*>` → `""` of `ExtractPlainText`
(parser.go).  The first component is `none` outside a candidate tag and
`some acc` after an unmatched `'<'` (with `acc` holding, reversed, the
characters read since then); a closing `'>'` discards the whole span, and
end of input with an open candidate emits it verbatim, exactly as the
leftmost-match regex semantics does. -/
def stripTagsAux : Option (List Char) → List Char → List Char
  | none, [] => []
  | some acc, [] => acc.reverse
  | none, '<' :: rest => stripTagsAux (some ['<']) rest
  | none, c :: rest => c :: stripTagsAux none rest
  | some _, '>' :: rest => stripTagsAux none rest
  | some acc, c :: rest => stripTagsAux (some (c :: acc)) rest

/-- Every markup-like span `<...>` removed, as the regex
`<[^>]*>` of `ExtractPlainText` does. -/
def stripTags (l : List Char) : List Char :=
  stripTagsAux none l

/-- Model of `ExtractPlainText` (parser.go): write each caption's tag-free
text followed by one space into the builder, then trim. -/
def ExtractPlainText (captions : List Caption) : List Char :=
  goTrim (captions.foldl (fun b c => b ++ stripTags c.text ++ [' ']) [])

/-- Sole Coverage-Engine error: `end time must be greater than start time`. -/
inductive CoverageError where
  | invalidRange
deriving DecidableEq

/-- Model of the clipping loop of `ValidateCoverage` (coverage.go lines
54-65): keep each caption overlapping the window, clipped to it. -/
def clipSegments (captions : List Caption) (startTime endTime : ℚ) : List (ℚ × ℚ) :=
  captions.filterMap fun c =>
    if c.endTime ≤ startTime ∨ c.startTime ≥ endTime then none
    else some (max c.startTime startTime, min c.endTime endTime)

/-- Comparison by segment start, the sort key of `ValidateCoverage`. -/
def segLE (a b : ℚ × ℚ) : Prop := a.1 ≤ b.1

instance : DecidableRel segLE := fun a b => inferInstanceAs (Decidable (a.1 ≤ b.1))

instance : IsTotal (ℚ × ℚ) segLE := ⟨fun a b => le_total a.1 b.1⟩

instance : IsTrans (ℚ × ℚ) segLE := ⟨fun _ _ _ => le_trans⟩

/-- Model of the sorting pass of `ValidateCoverage` (coverage.go lines
69-76).  The Go original sorts `coveredSegments` by start time with an
in-place exchange sort; it is modelled by insertion sort, and the lemmas
below about the merge pass are proved for an arbitrary `segLE`-sorted
permutation of the clipped segments, so that nothing depends on which
sorting algorithm produced it (nor on the order of ties). -/
def sortSegments (segs : List (ℚ × ℚ)) : List (ℚ × ℚ) :=
  List.insertionSort segLE segs

/-- Model of the merge loop of `ValidateCoverage` (coverage.go lines 79-93):
`cur` is the last merged segment; a next segment starting at or before
`cur`'s end extends it (`last.end = max(last.end, current.end)`), anything
else closes `cur` and starts fresh. -/
def mergeLoop (cur : ℚ × ℚ) : List (ℚ × ℚ) → List (ℚ × ℚ)
  | [] => [cur]
  | s :: rest =>
    if s.1 ≤ cur.2 then mergeLoop (cur.1, max cur.2 s.2) rest
    else cur :: mergeLoop s rest

/-- Merge pass of `ValidateCoverage` (`if len(coveredSegments) > 0` block). -/
def mergeSegments : List (ℚ × ℚ) → List (ℚ × ℚ)
  | [] => []
  | s :: rest => mergeLoop s rest

/-- Model of the summation loop of `ValidateCoverage` (coverage.go lines
99-102): total length of a list of segments. -/
def totalLen : List (ℚ × ℚ) → ℚ
  | [] => 0
  | p :: rest => (p.2 - p.1) + totalLen rest

/-- The `coveredTime` value computed by `ValidateCoverage` (coverage.go
lines 54-102): clip, sort, merge, sum. -/
def coveredTime (captions : List Caption) (startTime endTime : ℚ) : ℚ :=
  totalLen (mergeSegments (sortSegments (clipSegments captions startTime endTime)))

/-- Model of Go `math.Round`: round half away from zero. -/
def goRound (x : ℚ) : ℤ :=
  if 0 ≤ x then ⌊x + 1 / 2⌋ else -⌊-x + 1 / 2⌋

/-- Rounding to 2 decimal places, `math.Round(x*100)/100` in coverage.go. -/
def roundCents (x : ℚ) : ℚ :=
  (goRound (x * 100) : ℚ) / 100

/-- Typed model of the `ValidationResult` produced by `ValidateCoverage`:
its `Valid` and `Type` fields plus the entries of its `Data` map
(`missing_coverage_seconds` is present only on failure, hence an `Option`). -/
structure ValidationResult where
  valid : Bool
  vtype : List Char
  requiredCoverage : ℚ
  actualCoverage : ℚ
  startTime : ℚ
  endTime : ℚ
  coveredTime : ℚ
  totalTime : ℚ
  missingCoverageSeconds : Option ℚ
deriving DecidableEq

/-- Model of `ValidateCoverage` (coverage.go): reject `endTime <= startTime`,
otherwise clip/sort/merge/sum the caption segments, compute the unrounded
percentage, compare it inclusively against `minCoverage`, and assemble the
result (with `actual_coverage` and `covered_time` rounded to 2 decimals). -/
def ValidateCoverage (captions : List Caption) (startTime endTime minCoverage : ℚ) :
    Except CoverageError ValidationResult :=
  if endTime ≤ startTime then .error .invalidRange
  else
    let totalTime := endTime - startTime
    let covered := coveredTime captions startTime endTime
    let coveragePercent := covered / totalTime * 100
    let valid : Bool := decide (coveragePercent ≥ minCoverage)
    .ok
      { valid := valid
        vtype := ['c', 'a', 'p', 't', 'i', 'o', 'n', '_', 'c', 'o', 'v', 'e', 'r', 'a', 'g', 'e']
        requiredCoverage := minCoverage
        actualCoverage := roundCents coveragePercent
        startTime := startTime
        endTime := endTime
        coveredTime := roundCents covered
        totalTime := totalTime
        missingCoverageSeconds :=
          if valid then none
          else some (roundCents (minCoverage / 100 * totalTime - covered)) }

/-- Union of the closed real intervals denoted by a list of segments; the
set whose Lebesgue measure `ValidateCoverage`'s covered time is compared
against. -/
def segUnion : List (ℚ × ℚ) → Set ℝ
  | [] => ∅
  | p :: rest => Set.Icc (p.1 : ℝ) (p.2 : ℝ) ∪ segUnion rest

theorem segUnion_eq_biUnion (l : List (ℚ × ℚ)) :
    segUnion l = ⋃ p ∈ l, Set.Icc (p.1 : ℝ) (p.2 : ℝ) := by
  induction l with
  | nil => simp [segUnion]
  | cons s rest ih => simp [segUnion, ih, List.mem_cons, Set.iUnion_or,
      Set.iUnion_union_distrib, Set.iUnion_iUnion_eq_left]

theorem measurableSet_segUnion (l : List (ℚ × ℚ)) : MeasurableSet (segUnion l) := by
  induction l with
  | nil => simp [segUnion]
  | cons s rest ih => exact (measurableSet_Icc).union ih

open MeasureTheory in
theorem volume_segUnion_ne_top (l : List (ℚ × ℚ)) : volume (segUnion l) ≠ ⊤ := by
  induction l with
  | nil => simp [segUnion]
  | cons s rest ih =>
    refine ne_top_of_le_ne_top ?_ (measure_union_le _ _)
    rw [Real.volume_Icc]
    exact ENNReal.add_ne_top.mpr ⟨ENNReal.ofReal_ne_top, ih⟩

theorem segUnion_subset_Ici (l : List (ℚ × ℚ)) (a : ℚ) (h : ∀ p ∈ l, a ≤ p.1) :
    segUnion l ⊆ Set.Ici (a : ℝ) := by
  induction l with
  | nil => simp [segUnion]
  | cons s rest ih =>
    apply Set.union_subset
    · intro x hx
      have h1 : (a : ℝ) ≤ (s.1 : ℝ) := by exact_mod_cast h s (List.mem_cons_self s rest)
      exact le_trans h1 hx.1
    · exact ih fun p hp => h p (List.mem_cons_of_mem s hp)

open MeasureTheory in
theorem mergeLoop_totalLen (l : List (ℚ × ℚ)) (cur : ℚ × ℚ) (hcur : cur.1 ≤ cur.2)
    (hle : ∀ p ∈ l, p.1 ≤ p.2) (hstart : ∀ p ∈ l, cur.1 ≤ p.1)
    (hsorted : l.Sorted segLE) :
    ((totalLen (mergeLoop cur l) : ℚ) : ℝ) =
      (volume (Set.Icc (cur.1 : ℝ) (cur.2 : ℝ) ∪ segUnion l)).toReal := by
  induction l generalizing cur with
  | nil =>
    simp only [mergeLoop, totalLen, segUnion, Set.union_empty, Real.volume_Icc]
    rw [ENNReal.toReal_ofReal (by exact_mod_cast sub_nonneg.mpr hcur)]
    push_cast
    ring
  | cons s rest ih =>
    rw [List.sorted_cons] at hsorted
    by_cases hext : s.1 ≤ cur.2
    · rw [mergeLoop, if_pos hext]
      have hs12 : s.1 ≤ s.2 := hle s (List.mem_cons_self s rest)
      have hc1s1 : cur.1 ≤ s.1 := hstart s (List.mem_cons_self s rest)
      have hIH := ih (cur.1, max cur.2 s.2) (le_trans hcur (le_max_left _ _))
        (fun p hp => hle p (List.mem_cons_of_mem s hp))
        (fun p hp => le_trans hc1s1 (hsorted.1 p hp))
        hsorted.2
      rw [hIH]
      congr 2
      show Set.Icc (cur.1 : ℝ) ((max cur.2 s.2 : ℚ) : ℝ) ∪ segUnion rest =
        Set.Icc (cur.1 : ℝ) (cur.2 : ℝ) ∪ (Set.Icc (s.1 : ℝ) (s.2 : ℝ) ∪ segUnion rest)
      rw [← Set.union_assoc,
        Set.Icc_union_Icc' (show (s.1 : ℝ) ≤ (cur.2 : ℝ) by exact_mod_cast hext)
          (show (cur.1 : ℝ) ≤ (s.2 : ℝ) by exact_mod_cast le_trans hc1s1 hs12)]
      rw [min_eq_left (show (cur.1 : ℝ) ≤ (s.1 : ℝ) by exact_mod_cast hc1s1)]
      push_cast
      rfl
    · rw [mergeLoop, if_neg hext]
      push_neg at hext
      have hd : Disjoint (Set.Icc (cur.1 : ℝ) (cur.2 : ℝ)) (segUnion (s :: rest)) := by
        have hsub : segUnion (s :: rest) ⊆ Set.Ici (s.1 : ℝ) := by
          apply segUnion_subset_Ici
          intro p hp
          rcases List.mem_cons.mp hp with h | h
          · subst h; exact le_refl _
          · exact hsorted.1 p h
        have hdi : Disjoint (Set.Icc (cur.1 : ℝ) (cur.2 : ℝ)) (Set.Ici (s.1 : ℝ)) := by
          rw [Set.disjoint_left]
          intro x hx hx2
          have hlt : (cur.2 : ℝ) < (s.1 : ℝ) := by exact_mod_cast hext
          exact absurd (le_trans hx2 hx.2) (not_le.mpr hlt)
        exact hdi.mono_right hsub
      rw [measure_union hd (measurableSet_segUnion _)]
      rw [ENNReal.toReal_add (by rw [Real.volume_Icc]; exact ENNReal.ofReal_ne_top)
        (volume_segUnion_ne_top _)]
      have hIH := ih s (hle s (List.mem_cons_self s rest))
        (fun p hp => hle p (List.mem_cons_of_mem s hp))
        (fun p hp => hsorted.1 p hp) hsorted.2
      show ((totalLen (cur :: mergeLoop s rest) : ℚ) : ℝ) = _
      rw [totalLen]
      push_cast
      rw [hIH]
      rw [Real.volume_Icc, ENNReal.toReal_ofReal (by exact_mod_cast sub_nonneg.mpr hcur)]
      show _ = (↑cur.2 - ↑cur.1) + (volume (Set.Icc (s.1 : ℝ) (s.2 : ℝ) ∪ segUnion rest)).toReal
      ring

open MeasureTheory in
theorem mergeSegments_totalLen (l : List (ℚ × ℚ)) (hle : ∀ p ∈ l, p.1 ≤ p.2)
    (hsorted : l.Sorted segLE) :
    ((totalLen (mergeSegments l) : ℚ) : ℝ) = (volume (segUnion l)).toReal := by
  cases l with
  | nil => simp [mergeSegments, totalLen, segUnion]
  | cons s rest =>
    rw [List.sorted_cons] at hsorted
    rw [mergeSegments]
    exact mergeLoop_totalLen rest s (hle s (List.mem_cons_self s rest))
      (fun p hp => hle p (List.mem_cons_of_mem s hp)) (fun p hp => hsorted.1 p hp) hsorted.2

theorem segUnion_congr_perm {l₁ l₂ : List (ℚ × ℚ)} (h : l₁.Perm l₂) :
    segUnion l₁ = segUnion l₂ := by
  rw [segUnion_eq_biUnion, segUnion_eq_biUnion]
  ext x
  simp only [Set.mem_iUnion]
  exact ⟨fun ⟨p, hp, hx⟩ => ⟨p, h.mem_iff.mp hp, hx⟩,
    fun ⟨p, hp, hx⟩ => ⟨p, h.mem_iff.mpr hp, hx⟩⟩

theorem clipSegments_wf (captions : List Caption) (startTime endTime : ℚ)
    (hwf : ∀ c ∈ captions, c.startTime ≤ c.endTime) (hSE : startTime < endTime) :
    ∀ p ∈ clipSegments captions startTime endTime,
      startTime ≤ p.1 ∧ p.1 ≤ p.2 ∧ p.2 ≤ endTime := by
  intro p hp
  rw [clipSegments, List.mem_filterMap] at hp
  obtain ⟨c, hc, hpc⟩ := hp
  by_cases hcond : c.endTime ≤ startTime ∨ c.startTime ≥ endTime
  · simp [hcond] at hpc
  · simp only [hcond, if_false] at hpc
    push_neg at hcond
    obtain ⟨h1, h2⟩ := hcond
    have hpeq : p = (max c.startTime startTime, min c.endTime endTime) :=
      (Option.some_injective _ hpc).symm
    subst hpeq
    refine ⟨le_max_right _ _, ?_, min_le_right _ _⟩
    simp only [max_le_iff, le_min_iff]
    exact ⟨⟨hwf c hc, le_of_lt h1⟩, le_of_lt h2, le_of_lt hSE⟩

open MeasureTheory in
theorem coveredTime_eq_volume (captions : List Caption) (startTime endTime : ℚ)
    (hwf : ∀ c ∈ captions, c.startTime ≤ c.endTime) (hSE : startTime < endTime) :
    ((coveredTime captions startTime endTime : ℚ) : ℝ) =
      (volume (segUnion (clipSegments captions startTime endTime))).toReal := by
  have hperm : (sortSegments (clipSegments captions startTime endTime)).Perm
      (clipSegments captions startTime endTime) := List.perm_insertionSort segLE _
  rw [coveredTime, mergeSegments_totalLen _
    (fun p hp => ((clipSegments_wf captions startTime endTime hwf hSE) p
      (hperm.mem_iff.mp hp)).2.1)
    (List.sorted_insertionSort segLE _)]
  rw [segUnion_congr_perm hperm]

/-- Claim C1, counterexample to the literal statement: for the single
caption with `startTime = 5 > 3 = endTime` (the `Caption` data model does
not require `start ≤ end`) and the window `[0, 10]`, the merge loop of
`ValidateCoverage` sums the negative-length clipped segment `(5, 3)` to a
covered time of `-2`, while the union of the clipped intervals is the empty
set, of measure `0`; so `covered_time` does not always equal the length of
the union. -/
theorem coveredTime_union_counterexample :
    ¬ (((coveredTime [{ index := 1, startTime := 5, endTime := 3, text := [] }] 0 10 : ℚ) : ℝ) =
      (MeasureTheory.volume (⋃ p ∈ clipSegments
          [{ index := 1, startTime := 5, endTime := 3, text := [] }] 0 10,
        Set.Icc (p.1 : ℝ) (p.2 : ℝ))).toReal) := by
  intro h
  have hclip : clipSegments [{ index := 1, startTime := 5, endTime := 3, text := [] }]
      (0 : ℚ) 10 = [(5, 3)] := by
    norm_num [clipSegments, List.filterMap_cons, max_def, min_def]
  have hcov : coveredTime [{ index := 1, startTime := 5, endTime := 3, text := [] }]
      (0 : ℚ) 10 = -2 := by
    rw [coveredTime, hclip]
    norm_num [sortSegments, List.insertionSort, mergeSegments, mergeLoop, totalLen]
  rw [hcov, ← segUnion_eq_biUnion, hclip] at h
  have hse : segUnion [((5 : ℚ), (3 : ℚ))] = ∅ := by
    simp only [segUnion, Set.union_empty]
    apply Set.Icc_eq_empty
    push_cast
    norm_num
  rw [hse] at h
  simp only [MeasureTheory.measure_empty, ENNReal.zero_toReal] at h
  push_cast at h
  norm_num at h

/-- Claim C1 (amended: restricted to captions with `startTime ≤ endTime`,
which the literal claim's "caption intervals" silently presupposes and the
counterexample above shows is needed): for every such caption list and
window with `E > S`, the `covered_time` computed by `ValidateCoverage`
equals the Lebesgue measure of the union of the caption intervals clipped
to `[S, E]` — overlapping or touching segments counted once — and is
unchanged under any permutation of the caption list. -/
theorem coveredTime_union_amended (captions captions' : List Caption) (S E : ℚ)
    (hwf : ∀ c ∈ captions, c.startTime ≤ c.endTime) (hSE : S < E)
    (hperm : captions.Perm captions') :
    ((coveredTime captions S E : ℚ) : ℝ) =
      (MeasureTheory.volume (⋃ p ∈ clipSegments captions S E,
        Set.Icc (p.1 : ℝ) (p.2 : ℝ))).toReal
    ∧ coveredTime captions S E = coveredTime captions' S E := by
  have h1 := coveredTime_eq_volume captions S E hwf hSE
  have hwf' : ∀ c ∈ captions', c.startTime ≤ c.endTime := fun c hc =>
    hwf c (hperm.mem_iff.mpr hc)
  have h2 := coveredTime_eq_volume captions' S E hwf' hSE
  have hclip : (clipSegments captions S E).Perm (clipSegments captions' S E) :=
    hperm.filterMap _
  constructor
  · rw [h1, segUnion_eq_biUnion]
  · have hr : ((coveredTime captions S E : ℚ) : ℝ) =
        ((coveredTime captions' S E : ℚ) : ℝ) := by
      rw [h1, h2, segUnion_congr_perm hclip]
    exact_mod_cast hr

/-- Witness for `coveredTime_union_amended` at a concrete input. -/
theorem coveredTime_union_witness :
    (∀ c ∈ [({ index := 1, startTime := 0, endTime := 1, text := [] } : Caption)],
      c.startTime ≤ c.endTime) ∧ ((0 : ℚ) < 2) ∧
    (((coveredTime [{ index := 1, startTime := 0, endTime := 1, text := [] }] 0 2 : ℚ) : ℝ) =
      (MeasureTheory.volume (⋃ p ∈ clipSegments
          [{ index := 1, startTime := 0, endTime := 1, text := [] }] 0 2,
        Set.Icc (p.1 : ℝ) (p.2 : ℝ))).toReal
     ∧ coveredTime [{ index := 1, startTime := 0, endTime := 1, text := [] }] 0 2 =
        coveredTime [{ index := 1, startTime := 0, endTime := 1, text := [] }] 0 2) :=
  ⟨by norm_num, by norm_num,
    coveredTime_union_amended _ _ 0 2 (by norm_num) (by norm_num) (List.Perm.refl _)⟩

/-- Claim C10: for caption lists whose captions satisfy
`StartTime ≤ EndTime` and windows with `E > S`, `ValidateCoverage`
succeeds, its computed covered time lies in `[0, E - S]`, and the unrounded
coverage percentage lies in `[0, 100]`. -/
theorem validateCoverage_bounds (captions : List Caption) (S E minC : ℚ)
    (hwf : ∀ c ∈ captions, c.startTime ≤ c.endTime) (hSE : S < E) :
    ∃ r, ValidateCoverage captions S E minC = .ok r ∧
      0 ≤ coveredTime captions S E ∧ coveredTime captions S E ≤ E - S ∧
      0 ≤ coveredTime captions S E / (E - S) * 100 ∧
      coveredTime captions S E / (E - S) * 100 ≤ 100 := by
  have hcv := coveredTime_eq_volume captions S E hwf hSE
  have hyc : (0 : ℝ) ≤ ((coveredTime captions S E : ℚ) : ℝ) := hcv ▸ ENNReal.toReal_nonneg
  have h0 : 0 ≤ coveredTime captions S E := by exact_mod_cast hyc
  have hsub : segUnion (clipSegments captions S E) ⊆ Set.Icc (S : ℝ) (E : ℝ) := by
    rw [segUnion_eq_biUnion]
    refine Set.iUnion₂_subset fun p hp => ?_
    obtain ⟨hS, _, hE⟩ := clipSegments_wf captions S E hwf hSE p hp
    exact Set.Icc_subset_Icc (by exact_mod_cast hS) (by exact_mod_cast hE)
  have hle : ((coveredTime captions S E : ℚ) : ℝ) ≤ (E : ℝ) - (S : ℝ) := by
    rw [hcv]
    calc (MeasureTheory.volume (segUnion (clipSegments captions S E))).toReal ≤
        (MeasureTheory.volume (Set.Icc (S : ℝ) (E : ℝ))).toReal := by
          apply ENNReal.toReal_mono
          · rw [Real.volume_Icc]; exact ENNReal.ofReal_ne_top
          · exact MeasureTheory.measure_mono hsub
      _ = (E : ℝ) - (S : ℝ) := by
          rw [Real.volume_Icc]
          exact ENNReal.toReal_ofReal (sub_nonneg.mpr (by exact_mod_cast le_of_lt hSE))
  have h1 : coveredTime captions S E ≤ E - S := by exact_mod_cast hle
  have hden : (0 : ℚ) < E - S := sub_pos.mpr hSE
  have hq : 0 ≤ coveredTime captions S E / (E - S) := div_nonneg h0 hden.le
  have hq1 : coveredTime captions S E / (E - S) ≤ 1 := (div_le_one hden).mpr h1
  have hupper : coveredTime captions S E / (E - S) * 100 ≤ 100 := by
    calc coveredTime captions S E / (E - S) * 100 ≤ 1 * 100 :=
        mul_le_mul_of_nonneg_right hq1 (by norm_num)
      _ = 100 := one_mul 100
  have hok : ∃ r, ValidateCoverage captions S E minC = .ok r := by
    simp only [ValidateCoverage]
    rw [if_neg (not_le.mpr hSE)]
    exact ⟨_, rfl⟩
  obtain ⟨r, hr⟩ := hok
  exact ⟨r, hr, h0, h1, by positivity, hupper⟩

/-- Witness for `validateCoverage_bounds` at a concrete input. -/
theorem validateCoverage_bounds_witness :
    (∀ c ∈ ([] : List Caption), c.startTime ≤ c.endTime) ∧ ((0 : ℚ) < 1) ∧
    (∃ r, ValidateCoverage [] 0 1 50 = .ok r ∧
      0 ≤ coveredTime [] 0 1 ∧ coveredTime [] 0 1 ≤ 1 - 0 ∧
      0 ≤ coveredTime [] 0 1 / (1 - 0) * 100 ∧ coveredTime [] 0 1 / (1 - 0) * 100 ≤ 100) :=
  ⟨by simp, by norm_num, validateCoverage_bounds [] 0 1 50 (by simp) (by norm_num)⟩

theorem roundCents_zero : roundCents 0 = 0 := by
  norm_num [roundCents, goRound, Int.floor_eq_zero_iff]

/-- Claim C4: `ValidateCoverage` returns an error exactly when
`endTime ≤ startTime`; for a valid window, captions with no overlap with
the window (in particular an empty caption list) are not an error but give
a normal result with `actual_coverage = 0` and `covered_time = 0`. -/
theorem validateCoverage_error_iff (captions : List Caption) (S E minC : ℚ) :
    ((∃ e, ValidateCoverage captions S E minC = .error e) ↔ E ≤ S)
    ∧ (S < E → (∀ c ∈ captions, c.endTime ≤ S ∨ E ≤ c.startTime) →
      ∃ r, ValidateCoverage captions S E minC = .ok r ∧
        r.actualCoverage = 0 ∧ r.coveredTime = 0) := by
  constructor
  · constructor
    · rintro ⟨e, he⟩
      by_contra hns
      push_neg at hns
      simp only [ValidateCoverage, if_neg (not_le.mpr hns)] at he
      exact Except.noConfusion he
    · intro hES
      exact ⟨.invalidRange, by simp only [ValidateCoverage, if_pos hES]⟩
  · intro hSE hout
    have hclip : clipSegments captions S E = [] := by
      rw [clipSegments, List.filterMap_eq_nil_iff]
      intro c hc
      rcases hout c hc with h | h
      · simp [h]
      · simp [ge_iff_le, h]
    have hcov : coveredTime captions S E = 0 := by
      rw [coveredTime, hclip]
      simp [sortSegments, List.insertionSort, mergeSegments, totalLen]
    have hok : ∃ r, ValidateCoverage captions S E minC = .ok r ∧
        r.actualCoverage = roundCents (coveredTime captions S E / (E - S) * 100) ∧
        r.coveredTime = roundCents (coveredTime captions S E) := by
      simp only [ValidateCoverage, if_neg (not_le.mpr hSE)]
      exact ⟨_, rfl, rfl, rfl⟩
    obtain ⟨r, hr, ha, hc⟩ := hok
    refine ⟨r, hr, ?_, ?_⟩
    · rw [ha, hcov]
      norm_num [roundCents_zero]
    · rw [hc, hcov, roundCents_zero]

/-- Witness for `validateCoverage_error_iff` at a concrete input. -/
theorem validateCoverage_error_iff_witness :
    ((∃ e, ValidateCoverage [{ index := 1, startTime := 5, endTime := 6, text := [] }]
        0 1 50 = .error e) ↔ (1 : ℚ) ≤ 0)
    ∧ ((0 : ℚ) < 1 →
      (∀ c ∈ [({ index := 1, startTime := 5, endTime := 6, text := [] } : Caption)],
        c.endTime ≤ 0 ∨ 1 ≤ c.startTime) →
      ∃ r, ValidateCoverage [{ index := 1, startTime := 5, endTime := 6, text := [] }]
          0 1 50 = .ok r ∧ r.actualCoverage = 0 ∧ r.coveredTime = 0) :=
  validateCoverage_error_iff _ 0 1 50

/-- Claim C5: for every successful `ValidateCoverage` call the `valid` flag
is the inclusive comparison of the unrounded percentage
`covered / total * 100` against `minCoverage`; an exact match passes. -/
theorem validateCoverage_valid_iff (captions : List Caption) (S E minC : ℚ)
    (r : ValidationResult) (h : ValidateCoverage captions S E minC = .ok r) :
    (r.valid = true ↔ minC ≤ coveredTime captions S E / (E - S) * 100)
    ∧ (coveredTime captions S E / (E - S) * 100 = minC → r.valid = true) := by
  have hSE : ¬ E ≤ S := by
    intro hc
    simp only [ValidateCoverage, if_pos hc] at h
    exact Except.noConfusion h
  simp only [ValidateCoverage, if_neg hSE] at h
  have hr := Except.ok.inj h
  constructor
  · rw [← hr]
    simp [decide_eq_true_iff, ge_iff_le]
  · intro heq
    rw [← hr]
    simp only [decide_eq_true_iff, ge_iff_le]
    exact le_of_eq heq.symm

set_option maxHeartbeats 1000000 in
theorem validateCoverage_valid_iff_witness_eval :
    ValidateCoverage [] 0 1 0 =
      .ok { valid := true,
            vtype := ['c', 'a', 'p', 't', 'i', 'o', 'n', '_', 'c', 'o', 'v', 'e', 'r', 'a', 'g', 'e'],
            requiredCoverage := 0, actualCoverage := 0, startTime := 0, endTime := 1,
            coveredTime := 0, totalTime := 1, missingCoverageSeconds := none } := by
  norm_num [ValidateCoverage, coveredTime, clipSegments, sortSegments, List.insertionSort,
    mergeSegments, totalLen, roundCents_zero]

/-- Witness for `validateCoverage_valid_iff` at a concrete input. -/
theorem validateCoverage_valid_iff_witness :
    (ValidateCoverage [] 0 1 0 =
      .ok { valid := true,
            vtype := ['c', 'a', 'p', 't', 'i', 'o', 'n', '_', 'c', 'o', 'v', 'e', 'r', 'a', 'g', 'e'],
            requiredCoverage := 0, actualCoverage := 0, startTime := 0, endTime := 1,
            coveredTime := 0, totalTime := 1, missingCoverageSeconds := none })
    ∧ ((true = true ↔ (0 : ℚ) ≤ coveredTime [] 0 1 / (1 - 0) * 100)
      ∧ (coveredTime [] 0 1 / (1 - 0) * 100 = 0 → true = true)) :=
  ⟨validateCoverage_valid_iff_witness_eval,
    validateCoverage_valid_iff [] 0 1 0 _ validateCoverage_valid_iff_witness_eval⟩

theorem containsArrow_cons (c : Char) (l : List Char) (h : containsArrow l = true) :
    containsArrow (c :: l) = true := by
  unfold containsArrow
  split <;> simp_all

theorem containsArrow_cons_false (c : Char) (l : List Char)
    (h : containsArrow (c :: l) = false) : containsArrow l = false := by
  by_contra hc
  rw [Bool.not_eq_false] at hc
  rw [containsArrow_cons c l hc] at h
  exact Bool.noConfusion h

theorem splitArrow_eq_single (l : List Char) (h : containsArrow l = false) :
    splitArrow l = [l] := by
  induction l using splitArrow.induct with
  | case1 rest ih =>
    rw [containsArrow] at h
    exact Bool.noConfusion h
  | case2 c rest hne hnil ih =>
    have hr := ih (containsArrow_cons_false c rest h)
    rw [hnil] at hr
    exact absurd hr (by simp)
  | case3 c rest hne hd tl hcons ih =>
    have hr := ih (containsArrow_cons_false c rest h)
    rw [splitArrow, hr]
    exact hne
  | case4 => rfl

theorem containsArrow_append_left (l₁ l₂ : List Char) (h : containsArrow l₁ = true) :
    containsArrow (l₁ ++ l₂) = true := by
  induction l₁ using containsArrow.induct with
  | case1 rest =>
    rw [List.cons_append, List.cons_append, List.cons_append, containsArrow]
  | case2 c rest hne ih =>
    rw [containsArrow] at h
    · rw [List.cons_append]
      exact containsArrow_cons _ _ (ih h)
    · exact hne
  | case3 => exact Bool.noConfusion h

theorem containsArrow_dropWhile (p : Char → Bool) (l : List Char)
    (h : containsArrow (l.dropWhile p) = true) : containsArrow l = true := by
  induction l with
  | nil => simpa using h
  | cons c rest ih =>
    rw [List.dropWhile_cons] at h
    by_cases hp : p c
    · simp only [hp, if_true] at h
      exact containsArrow_cons c rest (ih h)
    · simp only [hp, if_false] at h
      exact h

theorem trimRight_append (l : List Char) :
    l = trimRight l ++ (l.reverse.takeWhile goIsSpace).reverse := by
  rw [trimRight]
  conv_lhs => rw [← List.reverse_reverse l, ← List.takeWhile_append_dropWhile goIsSpace l.reverse]
  rw [List.reverse_append]

theorem containsArrow_goTrim (l : List Char) (h : containsArrow (goTrim l) = true) :
    containsArrow l = true := by
  apply containsArrow_dropWhile goIsSpace
  rw [goTrim] at h
  rw [trimRight_append (l.dropWhile goIsSpace)]
  exact containsArrow_append_left _ _ h

/-- Timestamp parsing as claim C2 words it: component count 2 or 3 with all
components numeric gives `hours*3600 + minutes*60 + seconds` (hours 0 for
the 2-component form); any other count, or any non-numeric component, is an
`InvalidTimestamp` failure.  Used only to compare the two code-level
timestamp parsers against the claim. -/
def timestampSpecParse (parts : List (List Char)) : Except ParseError ℚ :=
  match parts.map parseFloat with
  | [some hours, some minutes, some seconds] => .ok (hours * 3600 + minutes * 60 + seconds)
  | [some minutes, some seconds] => .ok (0 * 3600 + minutes * 60 + seconds)
  | _ => .error .invalidTimestamp

/-- Claim C2, counterexample to the literal statement: on the 2-component
timestamp `01:30` the Format B (SRT) variant neither fails with
`InvalidTimestamp` nor returns `1*60 + 30 = 90`: `parseSRTTimestamp`
returns `0` with no error, because it treats every component count other
than 3 as a silent zero (`if len(parts) != 3 { return 0, nil }`). -/
theorem srtTimestamp_counterexample :
    parseSRTTimestamp ['0', '1', ':', '3', '0'] = .ok 0 ∧
    parseSRTTimestamp ['0', '1', ':', '3', '0'] ≠ .error .invalidTimestamp ∧
    ((0 : ℚ) ≠ 1 * 60 + 30) := by
  have h : parseSRTTimestamp ['0', '1', ':', '3', '0'] = .ok 0 := by
    simp +decide [parseSRTTimestamp, replaceFirstComma, splitOnChar]
  exact ⟨h, by simp [h], by norm_num⟩

/-- Claim C2 (amended: the Format A variant behaves exactly as claimed; the
Format B variant does so only for 3-component timestamps and instead
returns `0` without error for every other component count, failing only on
a non-numeric component of a 3-component timestamp): both timestamp parsers
characterised against the claim's parsing rule `timestampSpecParse`. -/
theorem timestamp_parse_amended (ts : List Char) :
    parseWebVTTTimestamp ts = timestampSpecParse (splitOnChar ':' ts)
    ∧ ((splitOnChar ':' (replaceFirstComma ts)).length = 3 →
        parseSRTTimestamp ts = timestampSpecParse (splitOnChar ':' (replaceFirstComma ts)))
    ∧ ((splitOnChar ':' (replaceFirstComma ts)).length ≠ 3 →
        parseSRTTimestamp ts = .ok 0) := by
  refine ⟨?_, ?_, ?_⟩
  · rcases hsp : splitOnChar ':' ts with _ | ⟨p0, _ | ⟨p1, _ | ⟨p2, _ | ⟨p3, rest⟩⟩⟩⟩
    · simp [parseWebVTTTimestamp, timestampSpecParse, hsp]
    · cases h0 : parseFloat p0 <;>
        simp [parseWebVTTTimestamp, timestampSpecParse, hsp, h0]
    · cases h0 : parseFloat p0 <;> cases h1 : parseFloat p1 <;>
        simp [parseWebVTTTimestamp, timestampSpecParse, hsp, h0, h1]
    · cases h0 : parseFloat p0 <;> cases h1 : parseFloat p1 <;> cases h2 : parseFloat p2 <;>
        simp [parseWebVTTTimestamp, timestampSpecParse, hsp, h0, h1, h2]
    · simp [parseWebVTTTimestamp, timestampSpecParse, hsp]
  · intro hlen
    rcases hsp : splitOnChar ':' (replaceFirstComma ts) with _ | ⟨p0, _ | ⟨p1, _ | ⟨p2, _ | ⟨p3, rest⟩⟩⟩⟩ <;>
      rw [hsp] at hlen <;> simp at hlen
    cases h0 : parseFloat p0 <;> cases h1 : parseFloat p1 <;> cases h2 : parseFloat p2 <;>
      simp [parseSRTTimestamp, timestampSpecParse, hsp, h0, h1, h2]
  · intro hlen
    rcases hsp : splitOnChar ':' (replaceFirstComma ts) with _ | ⟨p0, _ | ⟨p1, _ | ⟨p2, _ | ⟨p3, rest⟩⟩⟩⟩ <;>
      rw [hsp] at hlen <;> try simp at hlen
    all_goals simp [parseSRTTimestamp, hsp]

/-- Witness for `timestamp_parse_amended` at a concrete input: `07:30` has
component count 2, so the Format B parser yields `0` silently. -/
theorem timestamp_parse_witness :
    ((splitOnChar ':' (replaceFirstComma ['0', '7', ':', '3', '0'])).length ≠ 3) ∧
    parseSRTTimestamp ['0', '7', ':', '3', '0'] = .ok 0 :=
  ⟨by decide, (timestamp_parse_amended ['0', '7', ':', '3', '0']).2.2 (by decide)⟩

/-- Claim C7, counterexample to the literal statement: on the arrow-free
timeline line `hi` the Format B (SRT) timeline parser does not fail with
`InvalidTimeline`: it returns `(0, 0)` with no error, because
`parseSRTTimeline` treats a split with other than 2 parts as a silent
success (`if len(parts) != 2 { return 0, 0, nil }`). -/
theorem srtTimeline_counterexample :
    parseSRTTimeline ['h', 'i'] = .ok (0, 0) ∧
    parseSRTTimeline ['h', 'i'] ≠ .error .invalidTimeline := by
  have h : parseSRTTimeline ['h', 'i'] = .ok (0, 0) := by
    simp +decide [parseSRTTimeline, goTrim, trimRight, goIsSpace, splitArrow]
  exact ⟨h, by simp [h]⟩

/-- Claim C7 (amended: the Format A timeline parser fails with
`InvalidTimeline` on every line not containing the arrow token, as claimed;
the Format B timeline parser instead returns `(0, 0)` with no error): both
timeline parsers on arrow-free lines. -/
theorem timeline_no_arrow_amended (line : List Char) (h : containsArrow line = false) :
    parseWebVTTTimeline line = .error .invalidTimeline
    ∧ parseSRTTimeline line = .ok (0, 0) := by
  have htrim : containsArrow (goTrim line) = false := by
    by_contra hc
    rw [Bool.not_eq_false] at hc
    rw [containsArrow_goTrim line hc] at h
    exact Bool.noConfusion h
  have hsp := splitArrow_eq_single _ htrim
  constructor
  · simp [parseWebVTTTimeline, hsp]
  · simp [parseSRTTimeline, hsp]

/-- Witness for `timeline_no_arrow_amended` at a concrete input. -/
theorem timeline_no_arrow_witness :
    containsArrow ['x', 'y'] = false ∧
    (parseWebVTTTimeline ['x', 'y'] = .error .invalidTimeline
     ∧ parseSRTTimeline ['x', 'y'] = .ok (0, 0)) :=
  ⟨by decide, timeline_no_arrow_amended ['x', 'y'] (by decide)⟩

theorem parseWebVTTTimestamp_ne_missingHeader (ts : List Char) :
    parseWebVTTTimestamp ts ≠ .error .missingHeader := by
  unfold parseWebVTTTimestamp
  split
  · split <;> simp
  · split <;> simp
  · simp

theorem parseWebVTTTimeline_ne_missingHeader (line : List Char) :
    parseWebVTTTimeline line ≠ .error .missingHeader := by
  unfold parseWebVTTTimeline
  split
  · rename_i p0 p1 heq
    cases h0 : parseWebVTTTimestamp (goTrim p0) with
    | error e =>
      simp only [h0]
      intro hc
      rw [Except.error.injEq] at hc
      subst hc
      exact parseWebVTTTimestamp_ne_missingHeader _ h0
    | ok q0 =>
      cases h1 : parseWebVTTTimestamp ((splitOnChar ' ' (goTrim p1)).headD []) with
      | error e =>
        simp only [h0, h1]
        intro hc
        rw [Except.error.injEq] at hc
        subst hc
        exact parseWebVTTTimestamp_ne_missingHeader _ h1
      | ok q1 => simp [h0, h1]
  · simp

theorem vttCues_ne_missingHeader (lines : List (List Char)) :
    ∀ cur inC tl idx acc, vttCues lines cur inC tl idx acc ≠ .error .missingHeader := by
  induction lines with
  | nil =>
    intro cur inC tl idx acc
    rw [vttCues]
    split <;> simp
  | cons line rest ih =>
    intro cur inC tl idx acc
    rw [vttCues]
    split
    · split <;> apply ih
    · split
      · cases ht : parseWebVTTTimeline line with
        | error e =>
          simp only [ht]
          intro hc
          rw [Except.error.injEq] at hc
          subst hc
          exact parseWebVTTTimeline_ne_missingHeader _ ht
        | ok q =>
          simp only [ht]
          apply ih
      · split <;> apply ih

/-- Claim C6, counterexample to the literal statement: for the input whose
first line is blank and whose second line is `WEBVTT`, the first non-empty
line starts with the signature, yet `parseWebVTT` fails with
`MissingHeader`, because the code checks the signature only on the very
first scanned line. -/
theorem webvtt_header_counterexample :
    parseWebVTT [[], ['W', 'E', 'B', 'V', 'T', 'T']] = .error .missingHeader ∧
    List.find? (fun l => !l.isEmpty) [[], ['W', 'E', 'B', 'V', 'T', 'T']] =
      some ['W', 'E', 'B', 'V', 'T', 'T'] ∧
    webvttSig.isPrefixOf ['W', 'E', 'B', 'V', 'T', 'T'] = true := by
  refine ⟨?_, by decide, by decide⟩
  simp +decide [parseWebVTT, webvttSig]

/-- Claim C6 (amended: "first non-empty line" must be "first line" — the Go
code checks the signature on the literal first scanned line, so a leading
blank line defeats a signature on the next line; empty input is the
distinct empty-file error, not `MissingHeader`): `parseWebVTT` fails with
`MissingHeader` exactly when the input is nonempty and its first line does
not start with the `WEBVTT` signature. -/
theorem webvtt_header_amended (lines : List (List Char)) :
    parseWebVTT lines = .error .missingHeader ↔
      ∃ first rest, lines = first :: rest ∧ webvttSig.isPrefixOf first = false := by
  cases lines with
  | nil => simp [parseWebVTT]
  | cons first rest =>
    by_cases hp : webvttSig.isPrefixOf first = true
    · rw [parseWebVTT, if_pos hp]
      constructor
      · intro h
        exact absurd h (vttCues_ne_missingHeader _ _ _ _ _ _)
      · rintro ⟨f, r, heq, hf⟩
        injection heq with h1 h2
        subst h1
        rw [hp] at hf
        exact Bool.noConfusion hf
    · have hp' : webvttSig.isPrefixOf first = false := Bool.eq_false_iff.mpr hp
      rw [parseWebVTT, if_neg hp]
      constructor
      · intro _
        exact ⟨first, rest, rfl, hp'⟩
      · intro _
        rfl

/-- The claim C3 scenario input: two well-formed Format B cue blocks with
the blank separator line between them missing. -/
def srtMissingBlankLines : List (List Char) :=
  ["1".toList, "00:00:01,000 --> 00:00:02,000".toList, "Hello".toList,
   "2".toList, "00:00:03,000 --> 00:00:04,000".toList, "World".toList]

set_option maxHeartbeats 4000000 in
theorem srtMissingBlank_eval :
    parseSRT srtMissingBlankLines =
      .ok [{ index := 1, startTime := 1, endTime := 2,
             text := "Hello\n2\n00:00:03,000 --> 00:00:04,000\nWorld".toList }] := by
  simp +decide [srtMissingBlankLines, parseSRT, srtLoop, goTrim, trimRight, goIsSpace, goAtoi,
    containsArrow, parseSRTTimeline, parseSRTTimestamp, replaceFirstComma, splitOnChar,
    splitArrow, parseFloat, natOfDigits, joinNL]

/-- Claim C3, counterexample to the literal statement: on two cue blocks
with the blank separator missing, `parseSRT` returns 1 caption, not 2 —
once in the text state, every non-blank line (including the second block's
index and timeline lines) is swallowed as text of the first caption, and
the state-0 missing-blank-line recovery is never reached. -/
theorem srtMissingBlank_counterexample :
    Except.map List.length (parseSRT srtMissingBlankLines) = .ok 1 ∧ (1 : Nat) ≠ 2 := by
  refine ⟨?_, by norm_num⟩
  rw [srtMissingBlank_eval]
  rfl

/-- Claim C3 (amended: the recovery the claim describes does not happen;
the parser instead returns a single caption taking index and times from the
first block whose text is the newline-join of the first block's text with
the second block's index line, timeline line, and text): evaluation of
`parseSRT` on the scenario input. -/
theorem srtMissingBlank_amended :
    parseSRT srtMissingBlankLines =
      .ok [{ index := 1, startTime := 1, endTime := 2,
             text := "Hello\n2\n00:00:03,000 --> 00:00:04,000\nWorld".toList }] :=
  srtMissingBlank_eval

theorem chunkedSRTLoop_eq (lines : List (List Char)) :
    ∀ st cur tl acc, chunkedSRTLoop lines st cur tl acc = srtLoop lines st cur tl acc := by
  induction lines with
  | nil =>
    intro st cur tl acc
    rfl
  | cons line rest ih =>
    intro st cur tl acc
    match st with
    | 0 => simp only [chunkedSRTLoop, srtLoop, ih]
    | 1 => simp only [chunkedSRTLoop, srtLoop, ih]
    | st + 2 => simp only [chunkedSRTLoop, srtLoop, ih]

theorem parseChunkedSRT_eq (lines : List (List Char)) :
    parseChunkedSRT lines = parseSRT lines := by
  rw [parseChunkedSRT, parseSRT, chunkedSRTLoop_eq]

theorem chunkedVTTCues_eq (lines : List (List Char)) :
    ∀ cur inC tl idx acc,
      chunkedVTTCues lines cur inC tl idx acc = vttCues lines cur inC tl idx acc := by
  induction lines with
  | nil =>
    intro cur inC tl idx acc
    rfl
  | cons line rest ih =>
    intro cur inC tl idx acc
    rw [chunkedVTTCues, vttCues]
    simp only [ih]

/-- Claim C8: for inputs whose every line fits in the 64KB ceiling, the
bounded-memory parser variants produce exactly the caption sequences of
their standard counterparts, for both formats.  (At the level of scanned
lines the loops are identical; the only behavioural difference is the error
value on empty WebVTT input, `io.EOF` versus `empty file`, which never
yields a caption sequence.) -/
theorem chunked_standard_equiv (lines : List (List Char)) (cs : List Caption)
    (hceil : ∀ l ∈ lines, l.length ≤ 65536) :
    (parseChunkedWebVTT lines = .ok cs ↔ parseWebVTT lines = .ok cs)
    ∧ (parseChunkedSRT lines = .ok cs ↔ parseSRT lines = .ok cs) := by
  constructor
  · cases lines with
    | nil => simp [parseChunkedWebVTT, parseWebVTT]
    | cons first rest =>
      rw [parseChunkedWebVTT, parseWebVTT]
      by_cases hp : webvttSig.isPrefixOf first = true
      · rw [if_pos hp, if_pos hp, chunkedVTTCues_eq]
      · rw [if_neg hp, if_neg hp]
  · rw [parseChunkedSRT_eq]

/-- Witness for `chunked_standard_equiv` at a concrete input. -/
theorem chunked_standard_equiv_witness :
    (∀ l ∈ ([] : List (List Char)), l.length ≤ 65536) ∧
    ((parseChunkedWebVTT [] = .ok [] ↔ parseWebVTT [] = .ok [])
     ∧ (parseChunkedSRT [] = .ok [] ↔ parseSRT [] = .ok [])) :=
  ⟨by simp, chunked_standard_equiv [] [] (by simp)⟩

/-- Claim C9's "joined by single spaces": one space between consecutive
texts. -/
def joinSpaces : List (List Char) → List Char
  | [] => []
  | [t] => t
  | t :: ts => t ++ ' ' :: joinSpaces ts

/-- The builder content of `ExtractPlainText` before trimming: each text
followed by one space. -/
def spaceConcat : List (List Char) → List Char
  | [] => []
  | t :: ts => t ++ ' ' :: spaceConcat ts

theorem extract_foldl (l : List Caption) :
    ∀ acc : List Char,
      l.foldl (fun b c => b ++ stripTags c.text ++ [' ']) acc =
        acc ++ spaceConcat (l.map fun c => stripTags c.text) := by
  induction l with
  | nil =>
    intro acc
    simp [spaceConcat]
  | cons c rest ih =>
    intro acc
    rw [List.foldl_cons, ih, List.map_cons, spaceConcat]
    simp [List.append_assoc]

theorem trimRight_append_space (y : List Char) : trimRight (y ++ [' ']) = trimRight y := by
  rw [trimRight, trimRight, List.reverse_append]
  rfl

theorem goTrim_append_space (x : List Char) : goTrim (x ++ [' ']) = goTrim x := by
  rw [goTrim, goTrim, List.dropWhile_append]
  by_cases hx : (x.dropWhile goIsSpace).isEmpty
  · simp only [hx, if_true]
    rw [List.isEmpty_iff] at hx
    rw [hx]
    rfl
  · simp only [hx, if_false]
    exact trimRight_append_space _

theorem joinSpaces_cons_cons (t t2 : List Char) (ts : List (List Char)) :
    joinSpaces (t :: t2 :: ts) = t ++ ' ' :: joinSpaces (t2 :: ts) := rfl

theorem spaceConcat_eq_joinSpaces (ts : List (List Char)) (h : ts ≠ []) :
    spaceConcat ts = joinSpaces ts ++ [' '] := by
  induction ts with
  | nil => exact absurd rfl h
  | cons t rest ih =>
    cases rest with
    | nil => simp [spaceConcat, joinSpaces]
    | cons t2 rest2 =>
      rw [spaceConcat, ih (by simp), joinSpaces_cons_cons]
      simp [List.append_assoc]

/-- Claim C9: `ExtractPlainText` returns the captions' texts with every
markup-like `<...>` span removed, joined by single spaces in caption order,
with leading and trailing whitespace trimmed from the final result. -/
theorem extractPlainText_spec (captions : List Caption) :
    ExtractPlainText captions =
      goTrim (joinSpaces (captions.map fun c => stripTags c.text)) := by
  rw [ExtractPlainText, extract_foldl, List.nil_append]
  cases captions with
  | nil => rfl
  | cons c rest =>
    rw [spaceConcat_eq_joinSpaces _ (by simp), goTrim_append_space]

set_option maxHeartbeats 1000000 in
example : parseSRTTimestamp "00:00:10,500".toList = .ok (21/2) := by
  simp +decide [parseSRTTimestamp, replaceFirstComma, splitOnChar, parseFloat, natOfDigits]
  norm_num

set_option maxHeartbeats 1000000 in
example : parseWebVTTTimestamp "01:02.5".toList = .ok (125/2) := by
  simp +decide [parseWebVTTTimestamp, splitOnChar, parseFloat, natOfDigits]
  norm_num

set_option maxHeartbeats 2000000 in
example : parseSRTTimeline "00:00:01,000 --> 00:00:02,000".toList = .ok (1, 2) := by
  simp +decide [parseSRTTimeline, goTrim, trimRight, goIsSpace, splitArrow, parseSRTTimestamp,
    replaceFirstComma, splitOnChar, parseFloat, natOfDigits]
